import Mathlib

/-
  Verification of the metadata write/verify pipeline of img-text-extractor
  (src/metadata.py), via a shallow embedding in Lean 4.

  Strings are modelled as Lean Strings; the character-level operations of
  Python (slicing by character count, str.strip, str.split, str.replace)
  are embedded as functions on List Char and wrapped back into String.
  Python's str.strip()/str.split() whitespace set is modelled as the ASCII
  whitespace characters (space, tab, newline, carriage return, vertical
  tab, form feed), which is exact for the inputs this program handles.
-/

/-- The whitespace characters recognized by Python str.strip and str.split. -/
def pyWsChars : List Char := [' ', '\t', '\n', '\r', '\x0b', '\x0c']

def isPyWs (c : Char) : Bool := pyWsChars.contains c

/-- Python str.strip on a character list: drop whitespace from both ends. -/
def pyStripL (l : List Char) : List Char :=
  ((l.dropWhile isPyWs).reverse.dropWhile isPyWs).reverse

/-- Python str.strip. -/
def pyStrip (s : String) : String := String.mk (pyStripL s.data)

/-- Split a character list at every character satisfying p (keeping empty
pieces), as Python str.split(sep) does for a one-character separator. -/
def splitOnPred (p : Char → Bool) : List Char → List (List Char)
  | [] => [[]]
  | c :: cs =>
    if p c then [] :: splitOnPred p cs
    else
      match splitOnPred p cs with
      | [] => [[c]]
      | l :: ls => (c :: l) :: ls

/-- Python s.split(chr(10)): split into lines at newline characters. -/
def splitLinesL (l : List Char) : List (List Char) :=
  splitOnPred (fun c => c = '\n') l

/-- Python str.split() with no argument: split on whitespace runs,
dropping empty pieces. -/
def pySplitL (l : List Char) : List (List Char) :=
  (splitOnPred isPyWs l).filter (fun t => !t.isEmpty)

/-- Python .replace(fullwidth comma, space).replace(fullwidth period, space),
as used on free-text lines before word splitting. -/
def pyReplaceCP (l : List Char) : List Char :=
  l.map (fun c => if c = '，' then ' ' else if c = '。' then ' ' else c)

/-- Python .replace on fullwidth comma, period and colon, as used by the
fallback tokenizers. -/
def pyReplaceCPC (l : List Char) : List Char :=
  l.map (fun c =>
    if c = '，' then ' ' else if c = '。' then ' ' else if c = '：' then ' ' else c)

/-- The fixed punctuation set of the keyword filter. -/
def punctChars : List Char := ['，', '。', '、', '！', '？', '：', '；']

/-- Python all(c in punct for c in kw): true when every character of the
keyword belongs to the fixed punctuation set (vacuously true when empty). -/
def punctOnly (w : String) : Bool := w.data.all (fun c => punctChars.contains c)

/- ---------------------------------------------------------------------
   Field maps (Python dict with string keys, observed via lookup),
   preserving Python dict insertion-order semantics.
   --------------------------------------------------------------------- -/

/-- Python dict assignment d[k] = v: replace in place if the key exists,
otherwise append at the end. -/
def setField : List (String × String) → String → String → List (String × String)
  | [], k, v => [(k, v)]
  | p :: rest, k, v =>
    if p.1 = k then (k, v) :: rest else p :: setField rest k v

/-- Python d.get(k): value of the first (unique) binding of k. -/
def lookupField : List (String × String) → String → Option String
  | [], _ => none
  | p :: rest, k => if p.1 = k then some p.2 else lookupField rest k

/-- The value of the last entry with the given key in a key/value sequence
(none if the key never occurs). -/
def lastKey (key : String) : List (String × String) → Option String
  | [] => none
  | p :: rest =>
    match lastKey key rest with
    | some w => some w
    | none => if p.1 = key then some p.2 else none

/- ---------------------------------------------------------------------
   Description Parser (MetadataWriter.parse_description and
   MetadataWriter.parse_description_screenshot, src/metadata.py:161-211).
   Each elif branch tests a label prefix on the stripped line and stores
   the text after the label (Python slice by character count), stripped,
   under a semantic key.  The branch chains are embedded as label tables
   in the exact source order.
   --------------------------------------------------------------------- -/

/-- Label table of parse_description (normal mode), in source elif order. -/
def normalLabels : List (List Char × String) :=
  [("主要内容：".data, "summary"),
   ("对象：".data, "objects"),
   ("场景：".data, "scene"),
   ("颜色：".data, "colors"),
   ("风格：".data, "style"),
   ("文字：".data, "text"),
   ("情感：".data, "emotion")]

/-- Label table of parse_description_screenshot, in source elif order. -/
def screenshotLabels : List (List Char × String) :=
  [("主要内容：".data, "summary"),
   ("文字内容：".data, "text_content"),
   ("应用信息：".data, "app_info"),
   ("界面元素：".data, "ui_elements"),
   ("功能区域：".data, "function_areas"),
   ("主题色彩：".data, "colors")]

/-- What one loop iteration of the parser does to a raw line: strip it,
skip it when blank, otherwise find the first matching label of the table
and produce the semantic key together with the stripped text after the
label (line[len(label):].strip() in the source). -/
def lineEntry (table : List (List Char × String)) (line : List Char) :
    Option (String × String) :=
  let l := pyStripL line
  if l.isEmpty then none
  else
    match table.find? (fun p => p.1.isPrefixOf l) with
    | some p => some (p.2, String.mk (pyStripL (l.drop p.1.length)))
    | none => none

def parseStep (table : List (List Char × String))
    (m : List (String × String)) (line : List Char) : List (String × String) :=
  match lineEntry table line with
  | some (k, v) => setField m k v
  | none => m

/-- The lines the parser and the extractors iterate over:
description.strip().split(chr(10)). -/
def linesOf (description : String) : List (List Char) :=
  splitLinesL (pyStripL description.data)

def parseWith (table : List (List Char × String)) (description : String) :
    List (String × String) :=
  (linesOf description).foldl (parseStep table) []

/-- MetadataWriter.parse_description (src/metadata.py:186-211). -/
def parse_description (description : String) : List (String × String) :=
  parseWith normalLabels description

/-- MetadataWriter.parse_description_screenshot (src/metadata.py:161-184). -/
def parse_description_screenshot (description : String) : List (String × String) :=
  parseWith screenshotLabels description

/-- The key/value entries the parser derives from the description, in line
order (one per non-blank line matching a label). -/
def entriesOf (table : List (List Char × String)) (description : String) :
    List (String × String) :=
  (linesOf description).filterMap (lineEntry table)

/- ---------------------------------------------------------------------
   Search-description construction inside MetadataWriter.write_metadata
   (src/metadata.py:271-294): the parts appended to
   search_description_parts, by key membership in the parsed mapping.
   --------------------------------------------------------------------- -/

def optPart (parsed : List (String × String)) (key : String) : List String :=
  match lookupField parsed key with
  | some v => [v]
  | none => []

/-- The search_description_parts list built by write_metadata: in
screenshot mode summary, text_content (truncated to 100 characters with a
trailing ellipsis), app_info; in normal mode summary, objects, scene.
A key present with an empty value still contributes a (empty) part, since
the source tests key membership, not truthiness. -/
def searchDescriptionParts (parsed : List (String × String))
    (screenshot_mode : Bool) : List String :=
  if screenshot_mode then
    optPart parsed "summary" ++
    (match lookupField parsed "text_content" with
     | some t =>
       [if 100 < t.data.length then String.mk (t.data.take 100) ++ "..." else t]
     | none => []) ++
    optPart parsed "app_info"
  else
    optPart parsed "summary" ++ optPart parsed "objects" ++ optPart parsed "scene"

/-- search_description = ' '.join(search_description_parts). -/
def search_description (parsed : List (String × String))
    (screenshot_mode : Bool) : String :=
  String.intercalate " " (searchDescriptionParts parsed screenshot_mode)

/- ---------------------------------------------------------------------
   Keyword Extractor (MetadataWriter.extract_keywords, src/metadata.py:92-159,
   and MetadataWriter.extract_keywords_screenshot, src/metadata.py:25-90).
   The Python set accumulated by keywords.update(...) is embedded as a
   deduplicating insertion-ordered list; the elif chain of each loop body
   is embedded per line as the list of tokens that iteration adds.
   sorted(..., key=len, reverse=True) is embedded as a stable insertion
   sort by descending character length (Python sort is stable, so the
   result is the same list).  All functions are total: the except-fallback
   branches of the source are embedded as the separate fallback functions,
   reachable in Python only if the main body raised.
   --------------------------------------------------------------------- -/

/-- Adding one element to the accumulated keyword set: no-op when already
present, else appended (insertion order). -/
def insertKw (l : List String) (w : String) : List String :=
  if w ∈ l then l else l ++ [w]

/-- keywords.update(ws). -/
def addKws (l : List String) (ws : List String) : List String :=
  ws.foldl insertKw l

/-- The tokens one loop iteration of extract_keywords adds to the keyword
set, per the elif chain (src order: 对象, 场景, 颜色, 风格, 文字, 情感,
主要内容).  Word-list lines split on whitespace; the 文字 line (unless
equal to the literal 无) and the 主要内容 line are additionally split on
fullwidth comma/period, keeping only words of stripped length > 1. -/
def normalLineTokens (line : List Char) : List String :=
  let l := pyStripL line
  if l.isEmpty then []
  else if "对象：".data.isPrefixOf l then
    let objects := pyStripL (l.drop 3)
    if objects.isEmpty then []
    else (pySplitL objects).map (fun t => String.mk (pyStripL t))
  else if "场景：".data.isPrefixOf l then
    let scene := pyStripL (l.drop 3)
    if scene.isEmpty then []
    else (pySplitL scene).map (fun t => String.mk (pyStripL t))
  else if "颜色：".data.isPrefixOf l then
    let colors := pyStripL (l.drop 3)
    if colors.isEmpty then []
    else (pySplitL colors).map (fun t => String.mk (pyStripL t))
  else if "风格：".data.isPrefixOf l then
    let style := pyStripL (l.drop 3)
    if style.isEmpty then []
    else (pySplitL style).map (fun t => String.mk (pyStripL t))
  else if "文字：".data.isPrefixOf l then
    let tc := pyStripL (l.drop 3)
    if tc.isEmpty || tc = "无".data then []
    else ((pySplitL (pyReplaceCP tc)).map (fun t => String.mk (pyStripL t))).filter
        (fun w => decide (1 < w.length))
  else if "情感：".data.isPrefixOf l then
    let emotions := pyStripL (l.drop 3)
    if emotions.isEmpty then []
    else (pySplitL emotions).map (fun t => String.mk (pyStripL t))
  else if "主要内容：".data.isPrefixOf l then
    let content := pyStripL (l.drop 5)
    if content.isEmpty then []
    else ((pySplitL (pyReplaceCP content)).map (fun t => String.mk (pyStripL t))).filter
        (fun w => decide (1 < w.length))
  else []

/-- The tokens one loop iteration of extract_keywords_screenshot adds, per
the elif chain (src order: 文字内容, 应用信息, 界面元素, 功能区域,
主要内容, 主题色彩).  The 文字内容 line keeps every stripped word of
length >= 1; the 主要内容 line keeps only words of stripped length > 1. -/
def screenshotLineTokens (line : List Char) : List String :=
  let l := pyStripL line
  if l.isEmpty then []
  else if "文字内容：".data.isPrefixOf l then
    let tc := pyStripL (l.drop 5)
    if tc.isEmpty then []
    else ((pySplitL tc).map (fun t => String.mk (pyStripL t))).filter
        (fun w => decide (1 ≤ w.length))
  else if "应用信息：".data.isPrefixOf l then
    let appInfo := pyStripL (l.drop 5)
    if appInfo.isEmpty then []
    else (pySplitL appInfo).map (fun t => String.mk (pyStripL t))
  else if "界面元素：".data.isPrefixOf l then
    let uiElems := pyStripL (l.drop 5)
    if uiElems.isEmpty then []
    else (pySplitL uiElems).map (fun t => String.mk (pyStripL t))
  else if "功能区域：".data.isPrefixOf l then
    let areas := pyStripL (l.drop 5)
    if areas.isEmpty then []
    else (pySplitL areas).map (fun t => String.mk (pyStripL t))
  else if "主要内容：".data.isPrefixOf l then
    let content := pyStripL (l.drop 5)
    if content.isEmpty then []
    else ((pySplitL (pyReplaceCP content)).map (fun t => String.mk (pyStripL t))).filter
        (fun w => decide (1 < w.length))
  else if "主题色彩：".data.isPrefixOf l then
    let colors := pyStripL (l.drop 5)
    if colors.isEmpty then []
    else (pySplitL colors).map (fun t => String.mk (pyStripL t))
  else []

/-- The accumulated candidate keyword set of extract_keywords. -/
def normalCandidates (description : String) : List String :=
  (linesOf description).foldl (fun acc line => addKws acc (normalLineTokens line)) []

/-- The accumulated candidate keyword set of extract_keywords_screenshot. -/
def screenshotCandidates (description : String) : List String :=
  (linesOf description).foldl (fun acc line => addKws acc (screenshotLineTokens line)) []

/-- The final filter of both extractors: len(kw) >= minLen and not all
characters in the fixed punctuation set. -/
def keywordFilter (minLen : Nat) (kw : String) : Bool :=
  decide (minLen ≤ kw.length) && !(punctOnly kw)

/-- Stable insertion into a list sorted by descending length: the new
element goes before the first element that is not longer (so among equal
lengths, earlier elements stay first, as Python stable sort does). -/
def insertLenDesc (w : String) : List String → List String
  | [] => [w]
  | y :: ys =>
    if y.length ≤ w.length then w :: y :: ys
    else y :: insertLenDesc w ys

/-- sorted(l, key=len, reverse=True): stable sort by descending length. -/
def sortByLenDesc : List String → List String
  | [] => []
  | x :: xs => insertLenDesc x (sortByLenDesc xs)

/-- The filtered candidate list of extract_keywords (filtered_keywords). -/
def normalFiltered (description : String) : List String :=
  (normalCandidates description).filter (keywordFilter 2)

/-- The filtered candidate list of extract_keywords_screenshot. -/
def screenshotFiltered (description : String) : List String :=
  (screenshotCandidates description).filter (keywordFilter 1)

/-- MetadataWriter.extract_keywords (src/metadata.py:92-159), main path:
filter to length >= 2 and not punctuation-only, sort by descending
length, keep the first 15. -/
def extract_keywords (description : String) : List String :=
  (sortByLenDesc (normalFiltered description)).take 15

/-- MetadataWriter.extract_keywords_screenshot (src/metadata.py:25-90),
main path: filter to length >= 1 and not punctuation-only, sort by
descending length, keep the first 25. -/
def extract_keywords_screenshot (description : String) : List String :=
  (sortByLenDesc (screenshotFiltered description)).take 25

/-- The except-branch fallback of extract_keywords: replace fullwidth
comma/period/colon by spaces, split on whitespace, keep stripped words of
length >= 2, first 10. -/
def extract_keywords_fallback (description : String) : List String :=
  (((pySplitL (pyReplaceCPC description.data)).map
      (fun t => String.mk (pyStripL t))).filter
    (fun w => decide (2 ≤ w.length))).take 10

/-- The except-branch fallback of extract_keywords_screenshot: same
tokenization, keep stripped words of length >= 1, first 20. -/
def extract_keywords_screenshot_fallback (description : String) : List String :=
  (((pySplitL (pyReplaceCPC description.data)).map
      (fun t => String.mk (pyStripL t))).filter
    (fun w => decide (1 ≤ w.length))).take 20

/- ---------------------------------------------------------------------
   Metadata Verifier (MetadataWriter.verify_metadata, src/metadata.py:415-460).
   The exiftool -j output record (data[0].items()) is embedded as an
   ordered list of string key/value pairs with unique keys; Python dict
   comprehension filtering keeps order.  Truthiness of a string value is
   nonemptiness.  Errors and nonzero exits return the empty mapping in the
   source before this logic runs, so the embedding covers the decision on
   the parsed record.
   --------------------------------------------------------------------- -/

/-- The dict comprehension: keep entries with truthy value and key other
than SourceFile. -/
def filterRecord (rec : List (String × String)) : List (String × String) :=
  rec.filter (fun kv => !(kv.2 == "") && !(kv.1 == "SourceFile"))

/-- The fields whose trimmed length decides meaningfulness. -/
def descriptionFields : List String :=
  ["ImageDescription", "XMP:Description", "Subject", "XMP:Subject"]

/-- has_description: some description field is present with trimmed length
greater than 10. -/
def hasDescription (metadata : List (String × String)) : Bool :=
  descriptionFields.any (fun fld =>
    match lookupField metadata fld with
    | some v => decide (10 < (pyStripL v.data).length)
    | none => false)

/-- MetadataWriter.verify_metadata (src/metadata.py:415-460), decision on
the parsed first record: filter, treat a lone UserComment=Screenshot as
empty, return the filtered mapping only when meaningful. -/
def verify_metadata (rec : List (String × String)) : List (String × String) :=
  let metadata := filterRecord rec
  if metadata.isEmpty then []
  else if metadata.length = 1 ∧ lookupField metadata "UserComment" = some "Screenshot" then []
  else if hasDescription metadata then metadata
  else []

/- ---------------------------------------------------------------------
   Safe Metadata Writer (MetadataWriter.write_metadata,
   src/metadata.py:213-413), embedded as a state machine over the files a
   single call touches: the target image, this call's temp backup file,
   and the exiftool sidecar (image path + _original suffix).  The external
   exiftool invocation is nondeterministic: its outcome (exit code or
   timeout, and the image/sidecar state it leaves behind) is a parameter.
   The field payload built between backup and invocation is pure (it is
   parse_description / extract_keywords / searchDescriptionParts above)
   and has no filesystem effect, so it does not appear in the transition.
   --------------------------------------------------------------------- -/

/-- A file on disk: its bytes and its access/modification times. -/
structure FileInfo where
  content : List Nat
  atime : Int
  mtime : Int
deriving DecidableEq, Repr

/-- The slice of the filesystem one write_metadata call observes. -/
structure FsState where
  image : Option FileInfo
  imageReadable : Bool
  imageWritable : Bool
  backup : Option FileInfo
  sidecar : Option FileInfo
deriving DecidableEq, Repr

/-- Outcome of the external exiftool run: a timeout or an exit code, each
together with the image and sidecar state the tool left behind. -/
inductive ToolResult where
  | timeout (img : Option FileInfo) (sc : Option FileInfo)
  | exited (code : Nat) (img : Option FileInfo) (sc : Option FileInfo)
deriving DecidableEq, Repr

/-- MetadataWriter.write_metadata (src/metadata.py:213-413).
Arguments beyond the state: the description (whose parsing has no
filesystem effect), whether backup creation succeeds, the timestamps the
temp backup file carries (copied onto the image by shutil.copy2 on
restore), and the external tool outcome.
Stages: existence/read/write access checks and the empty-file check
return false with no effect; backup failure returns false with no
effect; then the tool runs.  On timeout the backup is deleted and false
returned (no restore).  On exit 0 the file is re-statted: a missing file
(stat raises, caught at src/metadata.py:389) or a zero-size file is
restored from the backup by copy2, the backup deleted, false returned;
otherwise the sidecar is deleted if present, the original
access/modification times from the pre-write stat are restored, the
backup deleted, true returned.  On nonzero exit the backup is deleted
and false returned (no restore). -/
def write_metadata (s : FsState) (_description : String) (backupOk : Bool)
    (backupTimes : Int × Int) (tool : ToolResult) : FsState × Bool :=
  match s.image with
  | none => (s, false)
  | some f =>
    if !s.imageReadable then (s, false)
    else if !s.imageWritable then (s, false)
    else if f.content.isEmpty then (s, false)
    else if !backupOk then (s, false)
    else
      let backupFile : FileInfo :=
        { content := f.content, atime := backupTimes.1, mtime := backupTimes.2 }
      match tool with
      | .timeout img sc =>
        ({ s with image := img, sidecar := sc, backup := none }, false)
      | .exited code img sc =>
        if code = 0 then
          match img with
          | none =>
            ({ s with image := some backupFile, sidecar := sc, backup := none }, false)
          | some g =>
            if g.content.isEmpty then
              ({ s with image := some backupFile, sidecar := sc, backup := none }, false)
            else
              ({ s with image := some { content := g.content, atime := f.atime, mtime := f.mtime },
                        sidecar := none, backup := none }, true)
        else
          ({ s with image := img, sidecar := sc, backup := none }, false)

/- ---------------------------------------------------------------------
   Lemmas on field maps and the parser fold.
   --------------------------------------------------------------------- -/

theorem lookupField_setField_self (m : List (String × String)) (k v : String) :
    lookupField (setField m k v) k = some v := by
  induction m with
  | nil => simp [setField, lookupField]
  | cons p rest ih =>
    by_cases h : p.1 = k
    · simp [setField, h, lookupField]
    · simp [setField, h, lookupField, ih]

theorem lookupField_setField_ne (m : List (String × String)) (k v j : String)
    (h : j ≠ k) : lookupField (setField m k v) j = lookupField m j := by
  induction m with
  | nil => simp [setField, lookupField, Ne.symm h]
  | cons p rest ih =>
    by_cases hp : p.1 = k
    · subst hp
      simp [setField, lookupField, Ne.symm h]
    · simp only [setField, if_neg hp, lookupField]
      by_cases hj : p.1 = j
      · simp [hj]
      · simp [hj, ih]

theorem lastKey_mem {key v : String} :
    ∀ {l : List (String × String)}, lastKey key l = some v → (key, v) ∈ l := by
  intro l
  induction l with
  | nil => simp [lastKey]
  | cons p rest ih =>
    obtain ⟨k0, v0⟩ := p
    intro h
    simp only [lastKey] at h
    cases hr : lastKey key rest with
    | some w =>
      rw [hr] at h
      cases h
      exact List.mem_cons_of_mem _ (ih hr)
    | none =>
      rw [hr] at h
      by_cases hk : k0 = key
      · subst hk
        simp at h
        subst h
        exact List.mem_cons_self _ _
      · simp [hk] at h

theorem lastKey_isSome_of_mem {key v : String} :
    ∀ {l : List (String × String)}, (key, v) ∈ l → ∃ w, lastKey key l = some w := by
  intro l
  induction l with
  | nil => simp
  | cons p rest ih =>
    intro h
    rcases List.mem_cons.mp h with hp | hrest
    · cases hr : lastKey key rest with
      | some w => exact ⟨w, by simp [lastKey, hr]⟩
      | none =>
        refine ⟨p.2, ?_⟩
        have : p.1 = key := by rw [← hp]
        simp [lastKey, hr, this]
    · obtain ⟨w, hw⟩ := ih hrest
      exact ⟨w, by simp [lastKey, hw]⟩

theorem lastKey_eq_of_unique {key v : String} {l : List (String × String)}
    (hmem : (key, v) ∈ l) (huniq : ∀ w, (key, w) ∈ l → w = v) :
    lastKey key l = some v := by
  obtain ⟨w, hw⟩ := lastKey_isSome_of_mem hmem
  have := huniq w (lastKey_mem hw)
  rw [← this]
  exact hw

/-- The parser fold resolves a key to the value of the last line entry
bearing that key, falling back to the initial mapping. -/
theorem lookupField_parse_foldl (table : List (List Char × String)) (key : String) :
    ∀ (lines : List (List Char)) (m : List (String × String)),
      lookupField (lines.foldl (parseStep table) m) key =
        (lastKey key (lines.filterMap (lineEntry table))).elim (lookupField m key) some := by
  intro lines
  induction lines with
  | nil => intro m; simp [lastKey]
  | cons l ls ih =>
    intro m
    simp only [List.foldl_cons, List.filterMap_cons]
    cases he : lineEntry table l with
    | none => simp [parseStep, he, ih]
    | some e =>
      obtain ⟨k, v⟩ := e
      simp only [parseStep, he]
      rw [ih]
      cases hr : lastKey key (ls.filterMap (lineEntry table)) with
      | some w => simp [lastKey, hr]
      | none =>
        simp only [lastKey, hr, Option.elim]
        by_cases hk : k = key
        · subst hk
          simp [lookupField_setField_self]
        · simp [hk, lookupField_setField_ne _ _ _ _ (Ne.symm hk)]

/-- Generic form of the label-line lookup property, over a label table. -/
theorem parseWith_label_lookup (table : List (List Char × String)) (d : String)
    (line : List Char) (key val : String)
    (hline : line ∈ linesOf d) (he : lineEntry table line = some (key, val)) :
    (∃ l2 ∈ linesOf d, ∃ v2, lineEntry table l2 = some (key, v2) ∧
        lookupField (parseWith table d) key = some v2) ∧
    ((∀ e ∈ entriesOf table d, e.1 = key → e.2 = val) →
        lookupField (parseWith table d) key = some val) := by
  have hentry : (key, val) ∈ entriesOf table d :=
    List.mem_filterMap.mpr ⟨line, hline, he⟩
  have main : lookupField (parseWith table d) key =
      (lastKey key (entriesOf table d)).elim (lookupField [] key) some :=
    lookupField_parse_foldl table key (linesOf d) []
  constructor
  · obtain ⟨w, hw⟩ := lastKey_isSome_of_mem hentry
    obtain ⟨l2, hl2, he2⟩ := List.mem_filterMap.mp (lastKey_mem hw)
    refine ⟨l2, hl2, w, he2, ?_⟩
    rw [main, hw]
    rfl
  · intro huniq
    have hlast : lastKey key (entriesOf table d) = some val :=
      lastKey_eq_of_unique hentry (fun w hw => huniq (key, w) hw rfl)
    rw [main, hlast]
    rfl

theorem elim_none_some (o : Option String) :
    o.elim (none : Option String) some = o := by
  cases o <;> rfl

/-- C5: for every description containing at least one line that begins
with a recognized label of the chosen mode, parse returns a mapping in
which that label's semantic key is bound to the trimmed text after the
label prefix of a line bearing that label; when every line bearing that
label carries the same trimmed value, the key is bound to exactly that
value.  Stated for both parse_description and
parse_description_screenshot. -/
theorem parse_label_lookup :
    (∀ (d : String) (line : List Char) (key val : String),
        line ∈ linesOf d → lineEntry normalLabels line = some (key, val) →
        (∃ l2 ∈ linesOf d, ∃ v2, lineEntry normalLabels l2 = some (key, v2) ∧
            lookupField (parse_description d) key = some v2) ∧
        ((∀ e ∈ entriesOf normalLabels d, e.1 = key → e.2 = val) →
            lookupField (parse_description d) key = some val)) ∧
    (∀ (d : String) (line : List Char) (key val : String),
        line ∈ linesOf d → lineEntry screenshotLabels line = some (key, val) →
        (∃ l2 ∈ linesOf d, ∃ v2, lineEntry screenshotLabels l2 = some (key, v2) ∧
            lookupField (parse_description_screenshot d) key = some v2) ∧
        ((∀ e ∈ entriesOf screenshotLabels d, e.1 = key → e.2 = val) →
            lookupField (parse_description_screenshot d) key = some val)) :=
  ⟨fun d line key val hl he => parseWith_label_lookup normalLabels d line key val hl he,
   fun d line key val hl he => parseWith_label_lookup screenshotLabels d line key val hl he⟩

/-- C5 witness: on the spec scenario text, the summary key is bound to
the exact trimmed text after the 主要内容 label. -/
theorem parse_label_lookup_witness :
    lookupField (parse_description "主要内容：海边日落\n对象：太阳 海浪") "summary" =
      some "海边日落" :=
  (parse_label_lookup.1 "主要内容：海边日落\n对象：太阳 海浪"
      "主要内容：海边日落".data "summary" "海边日落" (by decide) (by decide)).2 (by decide)

/-- C6 counterexample: with the same label on two lines, the parser keeps
the value of the second line, not the first: the claim that the first
occurrence is kept fails on the description 对象：甲, 对象：乙. -/
theorem parse_duplicate_label_cex :
    lookupField (parse_description "对象：甲\n对象：乙") "objects" = some "乙" ∧
    lookupField (parse_description "对象：甲\n对象：乙") "objects" ≠ some "甲" := by
  constructor
  · decide
  · decide

/-- C6 amended: when the same label occurs on more than one line, the
last occurrence wins: the value stored under the label's semantic key is
the trimmed value of the last line bearing that label (each assignment
overwrites the previous one, since a mapping is built).  Stated as: any
key resolves to the last parser entry bearing it, in both modes. -/
theorem parse_last_occurrence_wins (d : String) (key : String) :
    lookupField (parse_description d) key = lastKey key (entriesOf normalLabels d) ∧
    lookupField (parse_description_screenshot d) key =
      lastKey key (entriesOf screenshotLabels d) := by
  constructor
  · have h : lookupField (parse_description d) key =
        (lastKey key (entriesOf normalLabels d)).elim (lookupField [] key) some :=
      lookupField_parse_foldl normalLabels key (linesOf d) []
    rw [h]
    exact elim_none_some _
  · have h : lookupField (parse_description_screenshot d) key =
        (lastKey key (entriesOf screenshotLabels d)).elim (lookupField [] key) some :=
      lookupField_parse_foldl screenshotLabels key (linesOf d) []
    rw [h]
    exact elim_none_some _

/-- C10: a line that is exactly a recognized label followed by nothing
but whitespace yields a parsed entry binding the label's semantic key to
the empty string (present, not absent); provided no other line rebinds
that key to a different value, the parsed mapping binds the key to the
empty string, and for the keys the writer feeds into the search
description (summary, objects, scene in normal mode) the empty component
is appended to search_description_parts, since the writer tests key
membership rather than truthiness. -/
theorem parse_empty_label_value (d : String) (key : String)
    (hline : ∃ line ∈ linesOf d, lineEntry normalLabels line = some (key, ""))
    (huniq : ∀ e ∈ entriesOf normalLabels d, e.1 = key → e.2 = "") :
    lookupField (parse_description d) key = some "" ∧
    ((key = "summary" ∨ key = "objects" ∨ key = "scene") →
      "" ∈ searchDescriptionParts (parse_description d) false) := by
  obtain ⟨line, hl, he⟩ := hline
  have h : lookupField (parse_description d) key = some "" :=
    (parseWith_label_lookup normalLabels d line key "" hl he).2 huniq
  refine ⟨h, ?_⟩
  intro hkey
  rcases hkey with hk | hk | hk <;> subst hk <;>
    simp [searchDescriptionParts, optPart, h]

/-- C10 witness: the description consisting of the bare label 主要内容：
parses to summary bound to the empty string, and the empty component is
appended to the search description parts. -/
theorem parse_empty_label_value_witness :
    lookupField (parse_description "主要内容：") "summary" = some "" ∧
    "" ∈ searchDescriptionParts (parse_description "主要内容：") false := by
  have h := parse_empty_label_value "主要内容：" "summary" (by decide) (by decide)
  exact ⟨h.1, h.2 (Or.inl rfl)⟩

/- ---------------------------------------------------------------------
   Lemmas on the keyword pipeline.
   --------------------------------------------------------------------- -/

/-- Descending-length ordering used by sorted(key=len, reverse=True). -/
def lenGe (a b : String) : Prop := b.length ≤ a.length

theorem mem_insertLenDesc {a w : String} :
    ∀ {l : List String}, a ∈ insertLenDesc w l ↔ a = w ∨ a ∈ l := by
  intro l
  induction l with
  | nil => simp [insertLenDesc]
  | cons y ys ih =>
    by_cases hc : y.length ≤ w.length
    · simp [insertLenDesc, hc]
    · simp only [insertLenDesc, if_neg hc, List.mem_cons, ih]
      tauto

theorem perm_insertLenDesc (w : String) :
    ∀ (l : List String), (insertLenDesc w l).Perm (w :: l) := by
  intro l
  induction l with
  | nil => simp [insertLenDesc]
  | cons y ys ih =>
    by_cases hc : y.length ≤ w.length
    · simp [insertLenDesc, hc]
    · simp only [insertLenDesc, if_neg hc]
      exact (List.Perm.cons y ih).trans (List.Perm.swap w y ys)

theorem perm_sortByLenDesc : ∀ (l : List String), (sortByLenDesc l).Perm l := by
  intro l
  induction l with
  | nil => simp [sortByLenDesc]
  | cons x xs ih =>
    exact (perm_insertLenDesc x (sortByLenDesc xs)).trans (List.Perm.cons x ih)

theorem mem_sortByLenDesc {a : String} {l : List String} :
    a ∈ sortByLenDesc l ↔ a ∈ l :=
  (perm_sortByLenDesc l).mem_iff

theorem sorted_insertLenDesc {w : String} :
    ∀ {l : List String}, l.Sorted lenGe → (insertLenDesc w l).Sorted lenGe := by
  intro l
  induction l with
  | nil => intro _; simp [insertLenDesc]
  | cons y ys ih =>
    intro h
    rw [List.sorted_cons] at h
    by_cases hc : y.length ≤ w.length
    · simp only [insertLenDesc, if_pos hc]
      rw [List.sorted_cons]
      constructor
      · intro b hb
        rcases List.mem_cons.mp hb with hb | hb
        · subst hb; exact hc
        · exact le_trans (h.1 b hb) hc
      · rw [List.sorted_cons]
        exact h
    · simp only [insertLenDesc, if_neg hc]
      rw [List.sorted_cons]
      constructor
      · intro b hb
        rcases mem_insertLenDesc.mp hb with hb | hb
        · subst hb
          exact le_of_lt (Nat.lt_of_not_le hc)
        · exact h.1 b hb
      · exact ih h.2

theorem sorted_sortByLenDesc : ∀ (l : List String), (sortByLenDesc l).Sorted lenGe := by
  intro l
  induction l with
  | nil => simp [sortByLenDesc]
  | cons x xs ih => exact sorted_insertLenDesc ih

theorem mem_insertKw {a w : String} {l : List String} :
    a ∈ insertKw l w ↔ a ∈ l ∨ a = w := by
  by_cases h : w ∈ l
  · simp only [insertKw, if_pos h]
    constructor
    · exact Or.inl
    · rintro (ha | rfl)
      · exact ha
      · exact h
  · simp only [insertKw, if_neg h]
    simp

theorem mem_addKws {a : String} :
    ∀ (ws l : List String), a ∈ addKws l ws ↔ a ∈ l ∨ a ∈ ws := by
  intro ws
  induction ws with
  | nil => intro l; simp [addKws]
  | cons w ws ih =>
    intro l
    have step : addKws l (w :: ws) = addKws (insertKw l w) ws := rfl
    rw [step, ih, mem_insertKw]
    simp [List.mem_cons]
    tauto

/-- Anything contributed by some line's token list reaches the
accumulated candidate set. -/
theorem mem_candidates_of_line {tok : List Char → List String} {a : String} :
    ∀ (lines : List (List Char)) (acc : List String),
      (a ∈ acc ∨ ∃ line ∈ lines, a ∈ tok line) →
      a ∈ lines.foldl (fun acc2 line => addKws acc2 (tok line)) acc := by
  intro lines
  induction lines with
  | nil =>
    intro acc h
    rcases h with h | ⟨l, hl, _⟩
    · exact h
    · simp at hl
  | cons l ls ih =>
    intro acc h
    simp only [List.foldl_cons]
    apply ih
    rcases h with h | ⟨l2, hl2, ha⟩
    · exact Or.inl ((mem_addKws _ _).mpr (Or.inl h))
    · rcases List.mem_cons.mp hl2 with rfl | hl2
      · exact Or.inl ((mem_addKws _ _).mpr (Or.inr ha))
      · exact Or.inr ⟨l2, hl2, ha⟩

/-- C7: for every description and mode, extraction returns at most the
mode's maximum keyword count (15 normal, 25 screenshot, and 10 or 20 on
the respective fallback paths) and every returned keyword has at least
the mode's minimum length (2 normal, 1 screenshot); all four extraction
functions are total, embedding the never-raises policy. -/
theorem extract_keywords_bounds (d : String) :
    (extract_keywords d).length ≤ 15 ∧
    (∀ kw ∈ extract_keywords d, 2 ≤ kw.length) ∧
    (extract_keywords_screenshot d).length ≤ 25 ∧
    (∀ kw ∈ extract_keywords_screenshot d, 1 ≤ kw.length) ∧
    (extract_keywords_fallback d).length ≤ 10 ∧
    (∀ kw ∈ extract_keywords_fallback d, 2 ≤ kw.length) ∧
    (extract_keywords_screenshot_fallback d).length ≤ 20 ∧
    (∀ kw ∈ extract_keywords_screenshot_fallback d, 1 ≤ kw.length) := by
  refine ⟨List.length_take_le _ _, ?_, List.length_take_le _ _, ?_,
    List.length_take_le _ _, ?_, List.length_take_le _ _, ?_⟩
  · intro kw hkw
    have h1 := mem_sortByLenDesc.mp (List.mem_of_mem_take hkw)
    have h2 := (List.mem_filter.mp h1).2
    simp only [keywordFilter, Bool.and_eq_true, decide_eq_true_eq] at h2
    exact h2.1
  · intro kw hkw
    have h1 := mem_sortByLenDesc.mp (List.mem_of_mem_take hkw)
    have h2 := (List.mem_filter.mp h1).2
    simp only [keywordFilter, Bool.and_eq_true, decide_eq_true_eq] at h2
    exact h2.1
  · intro kw hkw
    have h1 := List.mem_of_mem_take hkw
    have h2 := (List.mem_filter.mp h1).2
    simpa using h2
  · intro kw hkw
    have h1 := List.mem_of_mem_take hkw
    have h2 := (List.mem_filter.mp h1).2
    simpa using h2

/-- C9: keyword extraction is deterministic (two calls on the same text
yield the same keyword list, hence the same multiset), the ordering stage
is a permutation (the multiset of filtered candidates is preserved by
sorting), and the output is sorted by descending length, so the position
of a keyword is determined up to ties among equal-length keywords. -/
theorem extract_keywords_deterministic (d : String) :
    (extract_keywords d).Perm (extract_keywords d) ∧
    (sortByLenDesc (normalFiltered d)).Perm (normalFiltered d) ∧
    (extract_keywords d).Sorted lenGe ∧
    (extract_keywords_screenshot d).Perm (extract_keywords_screenshot d) ∧
    (sortByLenDesc (screenshotFiltered d)).Perm (screenshotFiltered d) ∧
    (extract_keywords_screenshot d).Sorted lenGe := by
  refine ⟨List.Perm.refl _, perm_sortByLenDesc _, ?_, List.Perm.refl _,
    perm_sortByLenDesc _, ?_⟩
  · exact List.Pairwise.sublist (List.take_sublist _ _) (sorted_sortByLenDesc _)
  · exact List.Pairwise.sublist (List.take_sublist _ _) (sorted_sortByLenDesc _)

/-- Two label prefixes with different head characters cannot both match a
line. -/
theorem prefix_head_ne {c1 c2 : Char} {r1 r2 l : List Char} (hne : c2 ≠ c1)
    (h1 : (c1 :: r1).isPrefixOf l = true) :
    (c2 :: r2).isPrefixOf l = false := by
  cases l with
  | nil => simp [List.isPrefixOf] at h1
  | cons b bs =>
    have hb : c1 = b := by
      simp [List.isPrefixOf] at h1
      exact h1.1
    subst hb
    simp [List.isPrefixOf, hne]

/-- C8 counterexample: in screenshot mode a single-character
non-punctuation word appearing in the 主要内容 line's value is dropped at
tokenization (length > 1 pre-filter), so it cannot appear in the
extracted keywords even with no competing keywords: the claim that only
the minimum-length and punctuation filters drop candidates fails. -/
theorem screenshot_single_char_cex :
    extract_keywords_screenshot "主要内容：猫" = [] ∧
    punctOnly "猫" = false ∧
    "猫" ∉ extract_keywords_screenshot "主要内容：猫" := by
  refine ⟨by decide, by decide, ?_⟩
  intro h
  simp_all  [show extract_keywords_screenshot "主要内容：猫" = [] from by decide]

/-- C8 amended: in screenshot mode, tokens coming from a 文字内容 line
are dropped only by the minimum length (1) and the all-punctuation
filter — every non-punctuation word of such a line reaches the filtered
candidate list that is then sorted and truncated to 25 — whereas tokens
from the 主要内容 line are additionally pre-filtered at tokenization to
length at least 2. -/
theorem screenshot_keyword_filters :
    (∀ (d : String) (line : List Char) (w : String),
        line ∈ linesOf d →
        "文字内容：".data.isPrefixOf (pyStripL line) = true →
        w ∈ screenshotLineTokens line →
        punctOnly w = false →
        w ∈ screenshotFiltered d) ∧
    (∀ (line : List Char) (w : String),
        "主要内容：".data.isPrefixOf (pyStripL line) = true →
        w ∈ screenshotLineTokens line →
        2 ≤ w.length) := by
  constructor
  · intro d line w hline hpre htok hpunct
    have htok0 := htok
    have hl0 : (pyStripL line).isEmpty = false := by
      cases hl : pyStripL line
      · rw [hl] at hpre
        simp [List.isPrefixOf] at hpre
      · rfl
    simp only [screenshotLineTokens, hl0, Bool.false_eq_true, if_false, hpre,
      if_true] at htok
    split at htok
    · simp at htok
    · have hmem := List.mem_filter.mp htok
      have hlen : 1 ≤ w.length := by
        have := hmem.2
        simpa using this
      have hcand : w ∈ screenshotCandidates d := by
        rw [screenshotCandidates]
        exact mem_candidates_of_line (linesOf d) [] (Or.inr ⟨line, hline, htok0⟩)
      rw [screenshotFiltered]
      refine List.mem_filter.mpr ⟨hcand, ?_⟩
      simp [keywordFilter, hpunct, hlen]
  · intro line w hpre htok
    rw [show "主要内容：".data = '主' :: "要内容：".data from rfl] at hpre
    have hl0 : (pyStripL line).isEmpty = false := by
      cases hl : pyStripL line
      · rw [hl] at hpre
        simp [List.isPrefixOf] at hpre
      · rfl
    have hc1 : "文字内容：".data.isPrefixOf (pyStripL line) = false := by
      rw [show "文字内容：".data = '文' :: "字内容：".data from rfl]
      exact prefix_head_ne (by decide) hpre
    have hc2 : "应用信息：".data.isPrefixOf (pyStripL line) = false := by
      rw [show "应用信息：".data = '应' :: "用信息：".data from rfl]
      exact prefix_head_ne (by decide) hpre
    have hc3 : "界面元素：".data.isPrefixOf (pyStripL line) = false := by
      rw [show "界面元素：".data = '界' :: "面元素：".data from rfl]
      exact prefix_head_ne (by decide) hpre
    have hc4 : "功能区域：".data.isPrefixOf (pyStripL line) = false := by
      rw [show "功能区域：".data = '功' :: "能区域：".data from rfl]
      exact prefix_head_ne (by decide) hpre
    have hpre2 : "主要内容：".data.isPrefixOf (pyStripL line) = true := by
      rw [show "主要内容：".data = '主' :: "要内容：".data from rfl]
      exact hpre
    simp only [screenshotLineTokens, hl0, Bool.false_eq_true, if_false,
      hc1, hc2, hc3, hc4, hpre2, if_true] at htok
    split at htok
    · simp at htok
    · have hmem := List.mem_filter.mp htok
      have : 1 < w.length := by
        have := hmem.2
        simpa using this
      omega

/-- C8 amended witness: the single-character word 确 from a 文字内容 line
survives into the filtered candidate list. -/
theorem screenshot_keyword_filters_witness :
    "确" ∈ screenshotFiltered "文字内容：确 定" ∧
    2 ≤ ("猫猫" : String).length :=
  ⟨screenshot_keyword_filters.1 "文字内容：确 定" "文字内容：确 定".data "确"
      (by decide) (by decide) (by decide) (by decide),
   screenshot_keyword_filters.2 "主要内容：猫猫".data "猫猫" (by decide) (by decide)⟩

/- ---------------------------------------------------------------------
   Claims on the Safe Metadata Writer and the Verifier.
   --------------------------------------------------------------------- -/

theorem lookupField_mem {k v : String} :
    ∀ {m : List (String × String)}, lookupField m k = some v → (k, v) ∈ m := by
  intro m
  induction m with
  | nil => simp [lookupField]
  | cons p rest ih =>
    obtain ⟨k0, v0⟩ := p
    intro h
    simp only [lookupField] at h
    by_cases hp : k0 = k
    · subst hp
      simp at h
      subst h
      exact List.mem_cons_self _ _
    · rw [if_neg hp] at h
      exact List.mem_cons_of_mem _ (ih h)

/-- A concrete healthy filesystem state used by the witnesses and
counterexamples: a readable, writable, non-empty image and no leftover
backup or sidecar. -/
def sampleState : FsState :=
  { image := some { content := [1, 2, 3], atime := 100, mtime := 200 },
    imageReadable := true, imageWritable := true, backup := none, sidecar := none }

/-- C1 counterexample: when the external tool mutates the image and exits
non-zero, write_metadata returns false and deletes the backup but does
not restore the image, so the file is not unchanged from the caller's
perspective: the claimed restore-from-backup does not happen. -/
theorem write_tool_failure_cex :
    (write_metadata sampleState "d" true (5, 6)
        (.exited 1 (some { content := [9], atime := 100, mtime := 200 }) none)).2 = false ∧
    (write_metadata sampleState "d" true (5, 6)
        (.exited 1 (some { content := [9], atime := 100, mtime := 200 }) none)).1.backup = none ∧
    (write_metadata sampleState "d" true (5, 6)
        (.exited 1 (some { content := [9], atime := 100, mtime := 200 }) none)).1.image ≠
      sampleState.image := by
  refine ⟨by decide, by decide, by decide⟩

/-- C1 amended: if the external tool invocation exits non-zero or times
out after the preconditions passed and the backup was created,
write_metadata deletes the backup and returns false, leaving the image
and sidecar exactly as the tool left them — it does not restore from the
backup. -/
theorem write_tool_failure_no_restore (s : FsState) (d : String)
    (bt : Int × Int) (f : FileInfo) (img sc : Option FileInfo) (code : Nat)
    (hf : s.image = some f) (hr : s.imageReadable = true)
    (hw : s.imageWritable = true) (hne : f.content ≠ []) (hcode : code ≠ 0) :
    write_metadata s d true bt (ToolResult.exited code img sc) =
      ({ s with image := img, sidecar := sc, backup := none }, false) ∧
    write_metadata s d true bt (ToolResult.timeout img sc) =
      ({ s with image := img, sidecar := sc, backup := none }, false) := by
  constructor <;>
    simp [write_metadata, hf, hr, hw, hne, hcode]

/-- C1 amended witness: a concrete non-zero exit and a concrete timeout,
each deleting the backup, returning false and leaving the mutated image
in place. -/
theorem write_tool_failure_no_restore_witness :
    write_metadata sampleState "d" true (5, 6)
        (ToolResult.exited 2 (some { content := [7], atime := 1, mtime := 2 }) none) =
      ({ sampleState with image := some { content := [7], atime := 1, mtime := 2 },
                          sidecar := none, backup := none }, false) ∧
    write_metadata sampleState "d" true (5, 6)
        (ToolResult.timeout (some { content := [7], atime := 1, mtime := 2 }) none) =
      ({ sampleState with image := some { content := [7], atime := 1, mtime := 2 },
                          sidecar := none, backup := none }, false) :=
  write_tool_failure_no_restore sampleState "d" (5, 6) _ _ _ 2
    rfl rfl rfl (by decide) (by decide)

/-- C2: if the external tool exits zero but the re-stat reports size
zero, write_metadata copies the backup back onto the image (restoring the
content byte-for-byte to the pre-write original, with the backup file's
timestamps as shutil.copy2 copies them), deletes the backup and returns
false. -/
theorem write_zero_size_restores (s : FsState) (d : String) (bt : Int × Int)
    (f g : FileInfo) (sc : Option FileInfo)
    (hf : s.image = some f) (hr : s.imageReadable = true)
    (hw : s.imageWritable = true) (hne : f.content ≠ []) (hg : g.content = []) :
    write_metadata s d true bt (ToolResult.exited 0 (some g) sc) =
      ({ s with image := some { content := f.content, atime := bt.1, mtime := bt.2 },
                sidecar := sc, backup := none }, false) ∧
    ∃ h2, (write_metadata s d true bt (ToolResult.exited 0 (some g) sc)).1.image = some h2 ∧
      h2.content = f.content := by
  have hmain : write_metadata s d true bt (ToolResult.exited 0 (some g) sc) =
      ({ s with image := some { content := f.content, atime := bt.1, mtime := bt.2 },
                sidecar := sc, backup := none }, false) := by
    simp [write_metadata, hf, hr, hw, hne, hg]
  exact ⟨hmain, { content := f.content, atime := bt.1, mtime := bt.2 },
    by rw [hmain], rfl⟩

/-- C2 witness: a concrete zero-exit run that truncates the image to zero
bytes; write_metadata restores the original bytes, deletes the backup and
returns false. -/
theorem write_zero_size_restores_witness :
    write_metadata sampleState "d" true (5, 6)
        (ToolResult.exited 0 (some { content := [], atime := 0, mtime := 0 }) none) =
      ({ sampleState with
          image := some { content := [1, 2, 3], atime := 5, mtime := 6 },
          sidecar := none, backup := none }, false) :=
  (write_zero_size_restores sampleState "d" (5, 6) _ _ none
    rfl rfl rfl (by decide) rfl).1

/-- C3: whenever write_metadata returns true, the image's access and
modification timestamps equal the pre-write stat snapshot exactly, the
image's byte size is non-zero, and neither the temporary backup file nor
the _original sidecar file remains. -/
theorem write_success_roundtrip (s : FsState) (d : String) (bOk : Bool)
    (bt : Int × Int) (tool : ToolResult)
    (hres : (write_metadata s d bOk bt tool).2 = true) :
    ∃ f, s.image = some f ∧
      (write_metadata s d bOk bt tool).1.backup = none ∧
      (write_metadata s d bOk bt tool).1.sidecar = none ∧
      ∃ g, (write_metadata s d bOk bt tool).1.image = some g ∧
        g.atime = f.atime ∧ g.mtime = f.mtime ∧ g.content ≠ [] := by
  unfold write_metadata at hres ⊢
  repeat' split at hres
  all_goals simp_all

/-- C3 witness: a concrete successful run; the returned state carries the
original timestamps, a non-empty image and no backup or sidecar. -/
theorem write_success_roundtrip_witness :
    ∃ f, sampleState.image = some f ∧
      (write_metadata sampleState "d" true (5, 6)
          (ToolResult.exited 0 (some { content := [9, 9], atime := 7, mtime := 8 })
            (some { content := [4], atime := 0, mtime := 0 }))).1.backup = none ∧
      (write_metadata sampleState "d" true (5, 6)
          (ToolResult.exited 0 (some { content := [9, 9], atime := 7, mtime := 8 })
            (some { content := [4], atime := 0, mtime := 0 }))).1.sidecar = none ∧
      ∃ g, (write_metadata sampleState "d" true (5, 6)
          (ToolResult.exited 0 (some { content := [9, 9], atime := 7, mtime := 8 })
            (some { content := [4], atime := 0, mtime := 0 }))).1.image = some g ∧
        g.atime = f.atime ∧ g.mtime = f.mtime ∧ g.content ≠ [] :=
  write_success_roundtrip sampleState "d" true (5, 6)
    (ToolResult.exited 0 (some { content := [9, 9], atime := 7, mtime := 8 })
      (some { content := [4], atime := 0, mtime := 0 })) (by decide)

/-- C4: the verifier returns the empty mapping when the filtered field
set is empty or is exactly the single field UserComment with literal
value Screenshot, and returns the full filtered field mapping exactly
when at least one of ImageDescription, XMP:Description, Subject,
XMP:Subject has a trimmed length strictly greater than 10 characters:
with such a field the full filtered mapping is returned, and without one
the empty mapping is returned. -/
theorem verify_metadata_decision (rec : List (String × String)) :
    (filterRecord rec = [] → verify_metadata rec = []) ∧
    (filterRecord rec = [("UserComment", "Screenshot")] → verify_metadata rec = []) ∧
    ((∃ fld ∈ descriptionFields, ∃ v, lookupField (filterRecord rec) fld = some v ∧
        10 < (pyStripL v.data).length) →
      verify_metadata rec = filterRecord rec) ∧
    (¬(∃ fld ∈ descriptionFields, ∃ v, lookupField (filterRecord rec) fld = some v ∧
        10 < (pyStripL v.data).length) →
      verify_metadata rec = []) := by
  refine ⟨?_, ?_, ?_, ?_⟩
  · intro h
    simp [verify_metadata, h]
  · intro h
    simp [verify_metadata, h, lookupField]
  · rintro ⟨fld, hfld, v, hv, hlen⟩
    have hmemfld : (fld, v) ∈ filterRecord rec := lookupField_mem hv
    have hne : filterRecord rec ≠ [] := by
      intro h0
      rw [h0] at hmemfld
      simp at hmemfld
    have hscreen : ¬((filterRecord rec).length = 1 ∧
        lookupField (filterRecord rec) "UserComment" = some "Screenshot") := by
      rintro ⟨hlen1, hUC⟩
      obtain ⟨p, hp⟩ := List.length_eq_one.mp hlen1
      have hmemUC := lookupField_mem hUC
      rw [hp] at hmemUC hmemfld
      simp at hmemUC hmemfld
      have : fld = "UserComment" := by
        have h2 : (fld, v) = ("UserComment", "Screenshot") := by
          rw [hmemfld, hmemUC]
        exact congrArg Prod.fst h2
      rw [this] at hfld
      exact absurd hfld (by decide)
    have hdesc : hasDescription (filterRecord rec) = true := by
      rw [hasDescription, List.any_eq_true]
      refine ⟨fld, hfld, ?_⟩
      rw [hv]
      exact decide_eq_true hlen
    simp [verify_metadata, hne, hscreen, hdesc]
  · intro hno
    have hdesc : hasDescription (filterRecord rec) = false := by
      cases hd : hasDescription (filterRecord rec)
      · rfl
      · exfalso
        rw [hasDescription, List.any_eq_true] at hd
        obtain ⟨fld, hfld, hpred⟩ := hd
        cases hlk : lookupField (filterRecord rec) fld with
        | none =>
          rw [hlk] at hpred
          exact Bool.noConfusion hpred
        | some v =>
          rw [hlk] at hpred
          exact hno ⟨fld, hfld, v, hlk, of_decide_eq_true hpred⟩
    simp only [verify_metadata, hdesc, Bool.false_eq_true, if_false]
    split
    · rfl
    · split
      · rfl
      · rfl

/-- C4 witness: an empty record, a lone Screenshot marker, a record with
a long ImageDescription and a record whose only description field is
short, each decided by the theorem. -/
theorem verify_metadata_decision_witness :
    verify_metadata [("SourceFile", "a.jpg")] = [] ∧
    verify_metadata [("UserComment", "Screenshot")] = [] ∧
    verify_metadata [("SourceFile", "a.jpg"), ("ImageDescription", "description11")] =
      [("ImageDescription", "description11")] ∧
    verify_metadata [("SourceFile", "a.jpg"), ("ImageDescription", "short")] = [] :=
  ⟨(verify_metadata_decision [("SourceFile", "a.jpg")]).1 (by decide),
   (verify_metadata_decision [("UserComment", "Screenshot")]).2.1 (by decide),
   ((verify_metadata_decision
      [("SourceFile", "a.jpg"), ("ImageDescription", "description11")]).2.2.1
      ⟨"ImageDescription", by decide, "description11", by decide, by decide⟩).trans
    (by decide),
   (verify_metadata_decision [("SourceFile", "a.jpg"), ("ImageDescription", "short")]).2.2.2
    (by
      rintro ⟨fld, hfld, v, hv, hlen⟩
      have hv2 : (fld, v) ∈
          filterRecord [("SourceFile", "a.jpg"), ("ImageDescription", "short")] :=
        lookupField_mem hv
      rw [show filterRecord [("SourceFile", "a.jpg"), ("ImageDescription", "short")] =
          [("ImageDescription", "short")] from rfl] at hv2
      simp at hv2
      rw [hv2.2] at hlen
      exact absurd hlen (by decide))⟩

/-- C10 counterexample: a description containing a line that is exactly a
recognized label followed by nothing (first line) but also a later line
rebinding the same label: the key is bound to the later non-empty value,
not to the empty string, so the claim as universally stated fails. -/
theorem parse_empty_label_value_cex :
    lookupField (parse_description "主要内容：\n主要内容：X") "summary" = some "X" ∧
    lookupField (parse_description "主要内容：\n主要内容：X") "summary" ≠ some "" := by
  refine ⟨by decide, by decide⟩

/-- C7 witness: a concrete keyword of a concrete extraction satisfies the
minimum-length bound. -/
theorem extract_keywords_bounds_witness :
    (extract_keywords "主要内容：海边日落").length ≤ 15 ∧
    2 ≤ ("海边日落" : String).length :=
  ⟨(extract_keywords_bounds "主要内容：海边日落").1,
   (extract_keywords_bounds "主要内容：海边日落").2.1 "海边日落" (by decide)⟩
